import Mathlib

/-!
# Verification of the gleitzeitkonto-api overtime calculation engine

Shallow embedding of `gleitzeitkonto-api.ts`, versions 1.1.2 and 1.0.0
(class `GleitzeitkontoAPI`).  We model the pure calculation core:
`calculateFromWorkingTimes` together with its helpers
(`dateStringToObject`, `dateObjectToString`, `getMondayBefore`,
`getSundayAfter`, `timeStringToMinutes`, `minutesBetweenTimeStrings`,
`minutesToTimeString`).  The browser automation (`downloadWorkingTimes`)
and the file system are out of scope; the calculation is modelled as a
function from the already-read file content (a string, respectively the
2d string array it parses into) and the configuration to a result.

Modelling conventions:

* JavaScript runtime errors (`TypeError` from indexing `undefined`,
  `RangeError` from `toISOString` on an invalid/overflowed `Date`) are
  modelled with `Except JsError`.  An out-of-range array access itself
  yields `undefined` (here `Option.none`); the error only arises when a
  method is called on the `undefined` value, and the definitions below
  raise `.typeError` exactly at those places.
* JavaScript `NaN` (from `parseInt` on a digit-free string) is modelled
  by `Option.none` in `JsNum := Option Int`; arithmetic on `JsNum`
  absorbs `none` like `NaN`.
* `Date` objects: the code builds `new Date(year, month - 1, day + 1)`
  (local midnight of the day after), sets the UTC hour to 12, and later
  renders dates with `toISOString` (UTC).  In the timezone the program
  is written for (Europe/Berlin, UTC+1/+2), the extra day and the UTC
  offset cancel, so the observed calendar date is exactly the parsed
  `DD.MM.YYYY` date, weekday queries agree with that date, and
  `setDate(getDate() + 1)` advances it by one calendar day.  We therefore
  model a date value as its day number in the proleptic Gregorian
  calendar (days since 0000-03-01, Hinnant's civil-from-days scheme) and
  the two-digit-year rule of the `Date` constructor (`0..99` becomes
  `1900..1999`).
* The `do … while` walk of version 1.1.2 is modelled with explicit fuel.
  A real JavaScript `Date` overflows after around 10^8 further days and
  `toISOString` then throws a `RangeError`; we model "the walk never
  reaches the end date" with `.error .rangeError` when the fuel runs
  out.  The fuel passed by `calculateFromWorkingTimesV112` is an upper
  bound for the number of iterations whenever the walk terminates at
  all, so the model returns `.ok` exactly on the terminating runs.
* String splitting in the source always uses one-character separators
  (`"\n"`, `";"`, `"."`, `":"`), modelled by a structural splitter on
  the character list of the string so that all definitions evaluate
  inside the kernel.
-/

set_option maxRecDepth 100000

deriving instance DecidableEq for Except

namespace Gzk

/-! ## JavaScript number and string primitives -/

/-- JavaScript runtime failure modes of the calculation. -/
inductive JsError where
  /-- a property access or method call on `undefined` -/
  | typeError : JsError
  /-- `toISOString` on an invalid or overflowed `Date` -/
  | rangeError : JsError
deriving DecidableEq, Repr

/-- A JavaScript number that may be `NaN` (`none`). -/
abbrev JsNum := Option Int

/-- JavaScript `+` on numbers: `NaN` absorbs. -/
def jsAdd : JsNum → JsNum → JsNum
  | some a, some b => some (a + b)
  | _, _ => none

/-- JavaScript `-` on numbers: `NaN` absorbs. -/
def jsSub : JsNum → JsNum → JsNum
  | some a, some b => some (a - b)
  | _, _ => none

/-- Splits a character list at every occurrence of the separator
character.  Mirrors JavaScript `String.prototype.split` with a
one-character separator: it never returns an empty list, and an empty
input yields `[[]]` (JavaScript: `"".split(";") == [""]`). -/
def splitChar (sep : Char) : List Char → List (List Char)
  | [] => [[]]
  | c :: rest =>
    match splitChar sep rest with
    | [] => [[]]
    | group :: groups =>
      if c = sep then [] :: group :: groups else (c :: group) :: groups

/-- JavaScript `split` with a one-character separator, as a function on
strings. -/
def jsSplit (sep : Char) (s : String) : List String :=
  (splitChar sep s.data).map List.asString

/-- The digit characters of a string, in order.  Mirrors
`label.replace(/[^\d]/g, "")`. -/
def digitsOnly (s : String) : String :=
  (s.data.filter Char.isDigit).asString

/-- Value of a list of decimal digit characters. -/
def digitsToNat : List Char → Nat → Nat
  | [], acc => acc
  | c :: rest, acc => digitsToNat rest (acc * 10 + (c.toNat - 48))

/-- JavaScript `parseInt` restricted to the shapes occurring in the
source: reads the leading run of decimal digits and returns `none`
(`NaN`) when there is none.  (The source only applies `parseInt` to
digit runs from dates, times and digit-stripped labels.) -/
def parseIntPrefix (s : String) : Option Nat :=
  match s.data.takeWhile Char.isDigit with
  | [] => none
  | ds => some (digitsToNat ds 0)

/-- `timeStringToMinutes` of the source: splits `"HH:MM"` at `":"` and
returns `parseInt(parts[0]) * 60 + parseInt(parts[1])`; `none` models
the `NaN` produced when a part is missing or digit-free. -/
def timeStringToMinutes (time : String) : JsNum :=
  let parts := jsSplit ':' time
  match parseIntPrefix (parts.headD ""), (parts[1]?).bind parseIntPrefix with
  | some h, some m => some ((h : Int) * 60 + m)
  | _, _ => none

/-- `minutesBetweenTimeStrings` of the source:
`Math.abs(timeStringToMinutes(time1) - timeStringToMinutes(time2))`. -/
def minutesBetweenTimeStrings (time1 time2 : String) : JsNum :=
  match timeStringToMinutes time1, timeStringToMinutes time2 with
  | some a, some b => some |a - b|
  | _, _ => none

/-- `minutesToTimeString` of version 1.1.2: sign part `""` for zero,
`"-"` for negative, `"+"` for positive. -/
def minutesToTimeString (minutes : Int) : String :=
  let justHours := minutes.natAbs / 60
  let justMinutes := minutes.natAbs - justHours * 60
  (if minutes = 0 then "" else if minutes < 0 then "-" else "+") ++
  (if justHours ≠ 0 then toString justHours ++ "h" else "") ++
  (if justHours ≠ 0 ∧ justMinutes ≠ 0 then " " else "") ++
  (if justMinutes ≠ 0 ∨ (justHours = 0 ∧ justMinutes = 0) then toString justMinutes ++ "min" else "")

/-- `minutesToTimeString` of version 1.0.0: sign part `"-"` for
negative, empty otherwise. -/
def minutesToTimeStringV100 (minutes : Int) : String :=
  let justHours := minutes.natAbs / 60
  let justMinutes := minutes.natAbs - justHours * 60
  (if minutes < 0 then "-" else "") ++
  (if justHours ≠ 0 then toString justHours ++ "h" else "") ++
  (if justHours ≠ 0 ∧ justMinutes ≠ 0 then " " else "") ++
  (if justMinutes ≠ 0 ∨ (justHours = 0 ∧ justMinutes = 0) then toString justMinutes ++ "min" else "")

/-- Rendering of the final balance, including the `NaN` case: with
`minutes = NaN` every numeric test in `minutesToTimeString` is false
except the `!=` comparisons, so version 1.1.2 produces the literal
string `"+NaNh NaNmin"`. -/
def jsKontoString (konto : JsNum) : String :=
  match konto with
  | some k => minutesToTimeString k
  | none => "+NaNh NaNmin"

/-- Version 1.0.0 rendering of the final balance (`NaN` case analogous,
without the sign). -/
def jsKontoStringV100 (konto : JsNum) : String :=
  match konto with
  | some k => minutesToTimeStringV100 k
  | none => "NaNh NaNmin"

/-! ## Calendar dates

Day numbers count days since 0000-03-01 (so that the leap day is the
last day of a "shifted year"), following Hinnant's `days_from_civil` /
`civil_from_days` algorithms with floor division. -/

/-- Day number of the (normalized) civil date `(y, m, d)`.  Month and
day may be out of range; they roll over exactly like the arguments of
the JavaScript `Date` constructor. -/
def daysFromCivil (y m d : Int) : Int :=
  let ym := y * 12 + m - 1
  let y1 := ym.fdiv 12
  let m1 := ym.fmod 12 + 1
  let y2 := if m1 ≤ 2 then y1 - 1 else y1
  let era := y2.fdiv 400
  let yoe := y2.fmod 400
  let mp := (m1 + 9).fmod 12
  let doy := (153 * mp + 2).fdiv 5 + d - 1
  era * 146097 + yoe * 365 + yoe.fdiv 4 - yoe.fdiv 100 + doy

/-- Civil date `(y, m, d)` of a day number. -/
def civilFromDays (z : Int) : Int × Int × Int :=
  let era := z.fdiv 146097
  let doe := z.fmod 146097
  let yoe := (doe - doe.fdiv 1460 + doe.fdiv 36524 - doe.fdiv 146096).fdiv 365
  let doy := doe - (365 * yoe + yoe.fdiv 4 - yoe.fdiv 100)
  let mp := (5 * doy + 2).fdiv 153
  let d := doy - (153 * mp + 2).fdiv 5 + 1
  let m := if mp < 10 then mp + 3 else mp - 9
  (era * 400 + yoe + (if m ≤ 2 then 1 else 0), m, d)

/-- Decimal rendering of `n`, left-padded with `'0'` to `w` digits. -/
def padNat (w n : Nat) : String :=
  let s := toString n
  (List.replicate (w - s.length) '0').asString ++ s

/-- `dateObjectToString` of the source: `toISOString().substring(0, 10)`
reversed into `"DD.MM.YYYY"`.  Under the timezone convention described
in the header this renders exactly the calendar date of the day
number. -/
def renderDate (z : Int) : String :=
  match civilFromDays z with
  | (y, m, d) => padNat 2 d.toNat ++ "." ++ padNat 2 m.toNat ++ "." ++ padNat 4 y.toNat

/-- `dateStringToObject` of the source (with `dayOffset = 0`), reduced
to the observable calendar date: splits at `"."`, parses the three
parts, applies the `Date` constructor's two-digit-year rule, and
normalizes.  `none` models an invalid `Date` (a `NaN` component), which
raises a `RangeError` as soon as it is rendered.  The `day + 1` offset
of the source cancels against the UTC offset (see header). -/
def dateStringToDays (date : String) : Option Int :=
  let parts := jsSplit '.' date
  match parseIntPrefix (parts.headD ""), (parts[1]?).bind parseIntPrefix,
      (parts[2]?).bind parseIntPrefix with
  | some d, some m, some y =>
    some (daysFromCivil (if y ≤ 99 then (y : Int) + 1900 else (y : Int)) m d)
  | _, _, _ => none

/-- `Date.prototype.getDay`: `0` is Sunday.  Day number `730485`
(2000-03-01) was a Wednesday (`3`). -/
def jsWeekday (z : Int) : Int :=
  (z + 3) % 7

/-- `getMondayBefore` of the source, on day numbers: if the weekday is
not Monday, go back `(weekday + 6) % 7` days. -/
def mondayBefore (z : Int) : Int :=
  if jsWeekday z ≠ 1 then z - (jsWeekday z + 6) % 7 else z

/-- `getSundayAfter` of the source, on day numbers: if the weekday is
not Sunday, go forward `7 - weekday` days. -/
def sundayAfter (z : Int) : Int :=
  if jsWeekday z ≠ 0 then z + (7 - jsWeekday z) else z

/-! ## The parsed table -/

/-- The configuration fields used by the calculation. -/
structure Config where
  /-- weekly workload in hours (`config.wochenstunden`) -/
  wochenstunden : Nat
  /-- overtime at the start date in hours (`config.startStunden`) -/
  startStunden : Rat

/-- The result object of `calculateFromWorkingTimes`.  `lastDate` is an
`Option` because version 1.0.0 can propagate an `undefined` first cell
into it. -/
structure CalcResult where
  kontoString : String
  kontoInMin : JsNum
  lastDate : Option String
deriving DecidableEq, Repr

/-- `file.split("\n").map(s => s.split(";"))` followed by `shift()`:
the header line is discarded unconditionally. -/
def parseTable (file : String) : List (List String) :=
  ((jsSplit '\n' file).map (jsSplit ';')).tail

/-- `parseInt(entry[1].replace(/[^\d]/g, ""))`: `.typeError` when the
row has no second column (the method call on `undefined` throws),
`none` for a digit-free label (`parseInt` returns `NaN`). -/
def rowCode (row : List String) : Except JsError (Option Nat) :=
  match row[1]? with
  | none => .error .typeError
  | some label => .ok (parseIntPrefix (digitsOnly label))

/-- Pure variant of `rowCode`, meaningful on rows that do have a second
column (it treats a missing column like an empty label). -/
def rowCodeP (row : List String) : Option Nat :=
  parseIntPrefix (digitsOnly ((row[1]?).getD ""))

/-- `table.filter(entry => parseInt(entry[1].replace(/[^\d]/g, "")) != 9001)`,
with the `TypeError` of the predicate on a row without a second column.
JavaScript `NaN != 9001` is true, so `NaN`-coded rows are kept. -/
def filterNonVacation : List (List String) → Except JsError (List (List String))
  | [] => .ok []
  | row :: rest =>
    match rowCode row with
    | .error e => .error e
    | .ok code =>
      match filterNonVacation rest with
      | .error e => .error e
      | .ok l => .ok (if code ≠ some 9001 then row :: l else l)

/-- Error-free description of `filterNonVacation` (they agree whenever
no row is missing its second column). -/
def nonVacRows (table : List (List String)) : List (List String) :=
  table.filter (fun row => rowCodeP row ≠ some 9001)

/-! ## Version 1.1.2: the calendar-week walk -/

/-- The mutable state carried across loop iterations by version 1.1.2:
`workingHoursInMin` (expected minutes of the current week),
`workingTimeInMin` (worked minutes of the current week), `konto`
(the accumulated balance) and `dayCounter` (`dayCounter % 7` is the
weekday relative to the Monday start of the walk). -/
structure WalkState where
  workingHoursInMin : Int
  workingTimeInMin : JsNum
  konto : JsNum
  dayCounter : Nat
deriving DecidableEq, Repr

/-- `getAndRemoveFromTable(date)`, the returned part: all rows whose
first column equals the date string.  A row without a first column
(impossible for split output) simply never matches, like
`undefined == date` in JavaScript. -/
def dayEntries (table : List (List String)) (dateStr : String) : List (List String) :=
  table.filter (fun row => row[0]? == some dateStr)

/-- `getAndRemoveFromTable(date)`, the removal part: the table without
the matching rows. -/
def dayRest (table : List (List String)) (dateStr : String) : List (List String) :=
  table.filter (fun row => !(row[0]? == some dateStr))

/-- The `for (let entry of entries)` loop of version 1.1.2: adds
`minutesBetweenTimeStrings(entry[6], entry[7])` for every entry whose
category code is not `9003`.  A non-`9003` entry without columns 6 and 7
throws (`split` on `undefined`); a `9003` entry's times are never
touched. -/
def sumEntries : List (List String) → JsNum → Except JsError JsNum
  | [], acc => .ok acc
  | entry :: rest, acc =>
    match rowCode entry with
    | .error e => .error e
    | .ok code =>
      if code ≠ some 9003 then
        match entry[6]?, entry[7]? with
        | some t1, some t2 => sumEntries rest (jsAdd acc (minutesBetweenTimeStrings t1 t2))
        | _, _ => .error .typeError
      else sumEntries rest acc

/-- One iteration of the version 1.1.2 day loop, given the entries that
match the current date: the holiday branch (no entries on a weekday
reduces the week's expected minutes by `wochenstunden * 60 / 5`), the
summation branch, and the Sunday bookkeeping
(`konto += workingTimeInMin - workingHoursInMin`, then reset). -/
def stepDay (w : Nat) (entries : List (List String)) (st : WalkState) :
    Except JsError WalkState :=
  let summed : Except JsError (Int × JsNum) :=
    if entries.isEmpty then
      if st.dayCounter % 7 < 5 then
        .ok (st.workingHoursInMin - ((w : Int) * 60) / 5, st.workingTimeInMin)
      else
        .ok (st.workingHoursInMin, st.workingTimeInMin)
    else
      match sumEntries entries st.workingTimeInMin with
      | .error e => .error e
      | .ok wt => .ok (st.workingHoursInMin, wt)
  match summed with
  | .error e => .error e
  | .ok (wh, wt) =>
    if st.dayCounter % 7 = 6 then
      .ok { workingHoursInMin := (w : Int) * 60, workingTimeInMin := some 0,
            konto := jsAdd st.konto (jsSub wt (some wh)), dayCounter := st.dayCounter + 1 }
    else
      .ok { workingHoursInMin := wh, workingTimeInMin := wt,
            konto := st.konto, dayCounter := st.dayCounter + 1 }

/-- The `do … while (currentDateString != endDateString)` walk of
version 1.1.2, with fuel (see header: running out of fuel models the
eventual `RangeError` of a run that never reaches `endStr`). -/
def walkAux (w : Nat) (endStr : String) :
    Nat → Int → List (List String) → WalkState → Except JsError JsNum
  | 0, _, _, _ => .error .rangeError
  | fuel + 1, day, table, st =>
    match stepDay w (dayEntries table (renderDate day)) st with
    | .error e => .error e
    | .ok st' =>
      if renderDate day == endStr then .ok st'.konto
      else walkAux w endStr fuel (day + 1) (dayRest table (renderDate day)) st'

/-- `calculateFromWorkingTimes` of version 1.1.2, from the parsed table
(the file has been read and the header removed by `parseTable`).  Note
that this version never reads `config.startStunden`. -/
def calculateFromWorkingTimesV112 (cfg : Config) (table : List (List String)) :
    Except JsError CalcResult :=
  match filterNonVacation table with
  | .error e => .error e
  | .ok nonVacation =>
    match nonVacation.getLast? with
    | none => .error .typeError
    | some lastRow =>
      match lastRow[0]? with
      | none => .error .typeError
      | some lastWorkingDateString =>
        match dateStringToDays lastWorkingDateString with
        | none => .error .rangeError
        | some lastDay =>
          let endDay := sundayAfter lastDay
          let endDateString := renderDate endDay
          match table.head? with
          | none => .error .typeError
          | some firstRow =>
            match firstRow[0]? with
            | none => .error .typeError
            | some firstDateString =>
              match dateStringToDays firstDateString with
              | none => .error .rangeError
              | some firstDay =>
                let startDay := mondayBefore firstDay
                match walkAux cfg.wochenstunden endDateString
                    (endDay - startDay + 2).toNat startDay table
                    { workingHoursInMin := (cfg.wochenstunden : Int) * 60,
                      workingTimeInMin := some 0, konto := some 0, dayCounter := 0 } with
                | .error e => .error e
                | .ok konto =>
                  .ok { kontoString := jsKontoString konto, kontoInMin := konto,
                        lastDate := some lastWorkingDateString }

/-! ## Version 1.0.0: the per-day grouping loop -/

/-- The `for (let entry of table)` loop of version 1.0.0.  State:
`lastDate` (date of the current group), `konto`, `sumOfWorkingTimes`.
Per row: on a new date, book `sumOfWorkingTimes - wochenstundenInMin/5`
and reset; add the row's measured time unless its code is `9003`; stop
as soon as the row is a column-wise prefix of `lastEntry`
(`entry.every((v, i) => v === lastEntry[i])`). -/
def v100Loop (wMin : Int) (lastEntry : List String) :
    List (List String) → Option String → JsNum → JsNum →
    Except JsError (Option String × JsNum × JsNum)
  | [], lastDate, konto, sum => .ok (lastDate, konto, sum)
  | entry :: rest, lastDate, konto, sum =>
    let date := entry[0]?
    match rowCode entry with
    | .error e => .error e
    | .ok anwesenheitsart =>
      match entry[6]?, entry[7]? with
      | some t1, some t2 =>
        let workingTimeInMin := minutesBetweenTimeStrings t1 t2
        let konto1 := if date ≠ lastDate then jsAdd konto (jsSub sum (some (wMin / 5))) else konto
        let lastDate1 := if date ≠ lastDate then date else lastDate
        let sum1 : JsNum := if date ≠ lastDate then some 0 else sum
        let sum2 := if anwesenheitsart ≠ some 9003 then jsAdd sum1 workingTimeInMin else sum1
        if entry.isPrefixOf lastEntry then .ok (lastDate1, konto1, sum2)
        else v100Loop wMin lastEntry rest lastDate1 konto1 sum2
      | _, _ => .error .typeError

/-- `Math.round(startStunden * 60)`, written on the numerator and
denominator of the rational so that it evaluates in the kernel:
`round(x) = ⌊x + 1/2⌋` (JavaScript rounds half up), and
`⌊(120 num + den) / (2 den)⌋` is that value for `x = 60 num / den`. -/
def jsRoundTimes60 (s : Rat) : Int :=
  (s.num * 120 + (s.den : Int)).fdiv (2 * (s.den : Int))

/-- `calculateFromWorkingTimes` of version 1.0.0, from the parsed
table.  An empty table throws reading `table[0][0]`; an empty
non-vacation filter result leaves `lastEntry` `undefined`, which throws
in the loop's first iteration (the table is non-empty here), modelled
by the eager `.typeError`. -/
def calculateFromWorkingTimesV100 (cfg : Config) (table : List (List String)) :
    Except JsError CalcResult :=
  match table.head? with
  | none => .error .typeError
  | some firstRow =>
    let wochenstundenInMin : Int := (cfg.wochenstunden : Int) * 60
    match filterNonVacation table with
    | .error e => .error e
    | .ok nonVacation =>
      match nonVacation.getLast? with
      | none => .error .typeError
      | some lastEntry =>
        match v100Loop wochenstundenInMin lastEntry table firstRow[0]? (some 0) (some 0) with
        | .error e => .error e
        | .ok (lastDate, konto, sum) =>
          let konto1 := jsAdd konto (jsSub sum (some (wochenstundenInMin / 5)))
          let konto2 := jsAdd konto1 (some (jsRoundTimes60 cfg.startStunden))
          .ok { kontoString := jsKontoStringV100 konto2, kontoInMin := konto2,
                lastDate := lastDate }

/-! ## Concrete tables used by the claims -/

/-- The end-to-end example of the specification: a header line and five
rows, Monday 03.01.2022 through Friday 07.01.2022, category
`"1000 Normal"`, working `08:00`–`16:30`. -/
def exampleFile : String :=
  "Datum;Anwesenheitsart;P1;P2;P3;P4;Von;Bis\n" ++
  "03.01.2022;1000 Normal;;;;;08:00;16:30\n" ++
  "04.01.2022;1000 Normal;;;;;08:00;16:30\n" ++
  "05.01.2022;1000 Normal;;;;;08:00;16:30\n" ++
  "06.01.2022;1000 Normal;;;;;08:00;16:30\n" ++
  "07.01.2022;1000 Normal;;;;;08:00;16:30"

/-- The parsed example table. -/
def exampleTable : List (List String) :=
  parseTable exampleFile

/-- The example file with a trailing newline: its last parsed row is
`[""]`, the usual shape of a blank tail line. -/
def blankTailFile : String :=
  exampleFile ++ "\n"

/-- The example file with a final vacation row (`9001 Urlaub`) on the
following Monday. -/
def vacationTailFile : String :=
  exampleFile ++ "\n10.01.2022;9001 Urlaub;;;;;08:00;16:30"

/-- The parsed vacation-tail table. -/
def vacationTailTable : List (List String) :=
  parseTable vacationTailFile

/-- Replaces columns 6 and 7 (start and end time) of a row, leaving all
other columns unchanged. -/
def setTimes (row : List String) (t1 t2 : String) : List String :=
  row.take 6 ++ [t1, t2] ++ row.drop 8

/-- A flex-day row (`9003 Gleittag`) on 03.01.2022 with measured time
08:00–09:00. -/
def flexRow : List String :=
  ["03.01.2022", "9003 Gleittag", "", "", "", "", "08:00", "09:00"]

/-- A normal working row on 04.01.2022, 08:00–16:00. -/
def normalRow : List String :=
  ["04.01.2022", "1000 Normal", "", "", "", "", "08:00", "16:00"]

/-- A table with a duplicated flex-day row around a normal row: the
version 1.0.0 loop breaks at the first occurrence of the duplicate
(it is a column-wise prefix of the last non-vacation row). -/
def duplicateFlexTable : List (List String) :=
  [flexRow, normalRow, flexRow]

/-- Two normal rows of one calendar week, in date order. -/
def twoRowTable : List (List String) :=
  [["03.01.2022", "1000 Normal", "", "", "", "", "08:00", "16:30"],
   ["04.01.2022", "1000 Normal", "", "", "", "", "08:00", "16:30"]]

/-- The same two rows, swapped. -/
def twoRowTableSwapped : List (List String) :=
  [["04.01.2022", "1000 Normal", "", "", "", "", "08:00", "16:30"],
   ["03.01.2022", "1000 Normal", "", "", "", "", "08:00", "16:30"]]

/-! ## The label rendering rule of the specification

`specLabelRender` is written from the specification's words (not from
the source), to be compared with the two implementations: sign prefix
`"-"` if negative, `"+"` or no prefix if non-negative
(implementation-defined, the parameter `plusForPositive`; version 1.1.2
leaves zero unprefixed even with `plusForPositive`), whole hours as
`"<N>h"` omitted if zero, a single space if both parts are shown, and
minutes as `"<N>min"` omitted only if hours are non-zero and minutes
zero. -/

/-- The specification's rendering rule (see section comment). -/
def specLabelRender (plusForPositive : Bool) (k : Int) : String :=
  let h := k.natAbs / 60
  let m := k.natAbs % 60
  let sign := if k < 0 then "-" else if plusForPositive ∧ k ≠ 0 then "+" else ""
  let hoursPart := if h = 0 then "" else toString h ++ "h"
  let minutesPart := if h ≠ 0 ∧ m = 0 then "" else toString m ++ "min"
  let space := if ¬h = 0 ∧ ¬(h ≠ 0 ∧ m = 0) then " " else ""
  sign ++ hoursPart ++ space ++ minutesPart

lemma minutesToTimeString_eq_spec (k : Int) :
    minutesToTimeString k = specLabelRender true k := by
  unfold minutesToTimeString specLabelRender
  have hm : k.natAbs - k.natAbs / 60 * 60 = k.natAbs % 60 := by omega
  dsimp only
  rw [hm]
  rcases lt_trichotomy k 0 with h | h | h
  · have h0 : k ≠ 0 := by omega
    by_cases hh : k.natAbs / 60 = 0 <;> by_cases hmm : k.natAbs % 60 = 0 <;>
      simp [h, h0, hh, hmm, not_lt_of_gt]
  · subst h; rfl
  · have h0 : k ≠ 0 := by omega
    have hnl : ¬k < 0 := by omega
    by_cases hh : k.natAbs / 60 = 0 <;> by_cases hmm : k.natAbs % 60 = 0 <;>
      simp [h, h0, hh, hmm, hnl]

lemma minutesToTimeStringV100_eq_spec (k : Int) :
    minutesToTimeStringV100 k = specLabelRender false k := by
  unfold minutesToTimeStringV100 specLabelRender
  have hm : k.natAbs - k.natAbs / 60 * 60 = k.natAbs % 60 := by omega
  dsimp only
  rw [hm]
  rcases lt_trichotomy k 0 with h | h | h
  · have h0 : k ≠ 0 := by omega
    by_cases hh : k.natAbs / 60 = 0 <;> by_cases hmm : k.natAbs % 60 = 0 <;>
      simp [h, h0, hh, hmm, not_lt_of_gt]
  · subst h; rfl
  · have h0 : k ≠ 0 := by omega
    have hnl : ¬k < 0 := by omega
    by_cases hh : k.natAbs / 60 = 0 <;> by_cases hmm : k.natAbs % 60 = 0 <;>
      simp [h, h0, hh, hmm, hnl]

/-! ## Basic facts about the embedded operations -/

lemma jsAdd_zero_right (a : JsNum) : jsAdd a (some 0) = a := by
  cases a <;> simp [jsAdd]

lemma jsAdd_zero_left (a : JsNum) : jsAdd (some 0) a = a := by
  cases a <;> simp [jsAdd]

lemma jsAdd_assoc (a b c : JsNum) : jsAdd (jsAdd a b) c = jsAdd a (jsAdd b c) := by
  cases a <;> cases b <;> cases c <;> simp [jsAdd] <;> ring

lemma jsAdd_left_comm (a b c : JsNum) : jsAdd a (jsAdd b c) = jsAdd b (jsAdd a c) := by
  cases a <;> cases b <;> cases c <;> simp [jsAdd] <;> ring

lemma rowCode_of_isSome {row : List String} (h : (row[1]?).isSome) :
    rowCode row = .ok (rowCodeP row) := by
  obtain ⟨label, hl⟩ := Option.isSome_iff_exists.1 h
  simp [rowCode, rowCodeP, hl]

lemma rowCode_of_rowCodeP {row : List String} {c : Nat} (h : rowCodeP row = some c) :
    rowCode row = .ok (some c) := by
  have hsome : (row[1]?).isSome := by
    cases hl : row[1]? with
    | none =>
      rw [rowCodeP, hl] at h
      have hz : parseIntPrefix (digitsOnly ((none : Option String).getD "")) = none := rfl
      rw [hz] at h
      cases h
    | some label => rfl
  rw [rowCode_of_isSome hsome, h]

lemma filterNonVacation_isOk {table : List (List String)}
    (h : ∀ r ∈ table, (r[1]?).isSome) :
    filterNonVacation table = .ok (nonVacRows table) := by
  induction table with
  | nil => rfl
  | cons row rest ih =>
    have hrow := h row (List.mem_cons_self row rest)
    have hrest := ih fun r hr => h r (List.mem_cons_of_mem row hr)
    simp only [filterNonVacation, rowCode_of_isSome hrow, hrest, nonVacRows, List.filter_cons]
    by_cases hc : rowCodeP row ≠ some 9001 <;> simp [hc, nonVacRows]

lemma filterNonVacation_ok_eq {table l : List (List String)}
    (h : filterNonVacation table = .ok l) : l = nonVacRows table := by
  induction table generalizing l with
  | nil =>
    simp only [filterNonVacation] at h
    cases h
    rfl
  | cons row rest ih =>
    simp only [filterNonVacation] at h
    cases hc : rowCode row with
    | error e => rw [hc] at h; cases h
    | ok code =>
      rw [hc] at h
      cases hrec : filterNonVacation rest with
      | error e => rw [hrec] at h; cases h
      | ok l' =>
        rw [hrec] at h
        cases h
        have hcp : rowCodeP row = code := by
          have hsome : (row[1]?).isSome := by
            cases hl : row[1]? with
            | none => simp [rowCode, hl] at hc
            | some label => rfl
          have := rowCode_of_isSome hsome
          rw [hc] at this
          cases this
          rfl
        subst hcp
        rw [ih hrec]
        simp only [nonVacRows, List.filter_cons]
        by_cases h9 : rowCodeP row ≠ some 9001 <;> simp [h9, nonVacRows]

lemma filterNonVacation_ok_forall {table l : List (List String)}
    (h : filterNonVacation table = .ok l) : ∀ r ∈ table, (r[1]?).isSome := by
  induction table generalizing l with
  | nil => intro r hr; cases hr
  | cons row rest ih =>
    intro r hr
    simp only [filterNonVacation] at h
    cases hc : rowCode row with
    | error e => rw [hc] at h; cases h
    | ok code =>
      rw [hc] at h
      cases hrec : filterNonVacation rest with
      | error e => rw [hrec] at h; cases h
      | ok l' =>
        rcases List.mem_cons.1 hr with rfl | hr'
        · cases hl : r[1]? with
          | none => simp [rowCode, hl] at hc
          | some label => rfl
        · exact ih hrec r hr'

lemma filterNonVacation_error_eq {table : List (List String)} {e : JsError}
    (h : filterNonVacation table = .error e) : e = .typeError := by
  induction table generalizing e with
  | nil => simp [filterNonVacation] at h
  | cons row rest ih =>
    simp only [filterNonVacation] at h
    cases hc : rowCode row with
    | error e' =>
      rw [hc] at h
      cases h
      cases hl : row[1]? with
      | none => simp [rowCode, hl] at hc; cases hc; rfl
      | some label => simp [rowCode, hl] at hc
    | ok code =>
      rw [hc] at h
      cases hrec : filterNonVacation rest with
      | error e' => rw [hrec] at h; cases h; exact ih hrec
      | ok l' => rw [hrec] at h; cases h

lemma filterNonVacation_error_exists {table : List (List String)} {e : JsError}
    (h : filterNonVacation table = .error e) : ∃ r ∈ table, r[1]? = none := by
  induction table generalizing e with
  | nil => simp [filterNonVacation] at h
  | cons row rest ih =>
    simp only [filterNonVacation] at h
    cases hc : rowCode row with
    | error e' =>
      cases hl : row[1]? with
      | none => exact ⟨row, List.mem_cons_self row rest, hl⟩
      | some label => simp [rowCode, hl] at hc
    | ok code =>
      rw [hc] at h
      cases hrec : filterNonVacation rest with
      | error e' =>
        obtain ⟨r, hr, hn⟩ := ih hrec
        exact ⟨r, List.mem_cons_of_mem row hr, hn⟩
      | ok l' => rw [hrec] at h; cases h

/-! ## Claim theorems (first batch) -/

/-- C2: on the concrete table of one header row plus five rows Monday
03.01.2022 through Friday 07.01.2022 (category `"1000 Normal"`, empty
columns 2–5, times 08:00–16:30) with `weeklyHours = 40` and
`startingBalanceHours = 0`, `calculateFromWorkingTimes` returns
`kontoInMin = 150` (2550 worked minutes against a 2400 minute quota) in
both versions; the rendered strings are `"+2h 30min"` (1.1.2) and
`"2h 30min"` (1.0.0), and `lastDate` is `"07.01.2022"`. -/
theorem c2_end_to_end_example :
    calculateFromWorkingTimesV112 ⟨40, 0⟩ exampleTable =
      .ok { kontoString := "+2h 30min", kontoInMin := some 150,
            lastDate := some "07.01.2022" } ∧
    calculateFromWorkingTimesV100 ⟨40, 0⟩ exampleTable =
      .ok { kontoString := "2h 30min", kontoInMin := some 150,
            lastDate := some "07.01.2022" } := by
  constructor <;> decide

/-- C1: the claim that *both* accrual strategies finish by adding
`round(startingBalanceHours * 60)` is wrong for version 1.1.2, whose
`calculateFromWorkingTimes` never reads `config.startStunden`: the
result is literally independent of the starting balance (first
conjunct).  On the quota-plus-150 example table with
`startingBalanceHours = 1`, version 1.1.2 returns `150` where the claim
demands `150 + round(1 * 60) = 210`; version 1.0.0 does return `210`
(it adds `Math.round(startStunden * 60)`). -/
theorem c1_starting_balance_code_bug :
    (∀ (w : Nat) (s : Rat) (t : List (List String)),
      calculateFromWorkingTimesV112 ⟨w, s⟩ t = calculateFromWorkingTimesV112 ⟨w, 0⟩ t) ∧
    (calculateFromWorkingTimesV112 ⟨40, 1⟩ exampleTable).map CalcResult.kontoInMin =
      .ok (some 150) ∧
    (calculateFromWorkingTimesV100 ⟨40, 1⟩ exampleTable).map CalcResult.kontoInMin =
      .ok (some 210) := by
  refine ⟨fun w s t => rfl, ?_, ?_⟩ <;> decide

/-- C8: the claim that rows which do not reach the minimum column count
are skipped is wrong: on a file whose only blemish is a trailing blank
line (its last parsed row is `[""]`), both versions throw a `TypeError`
(reading `entry[1]` of the blank row inside the non-vacation filter)
instead of skipping the row and returning the result of the clean
table. -/
theorem c8_blank_tail_code_bug :
    calculateFromWorkingTimesV112 ⟨40, 0⟩ (parseTable blankTailFile) = .error .typeError ∧
    calculateFromWorkingTimesV100 ⟨40, 0⟩ (parseTable blankTailFile) = .error .typeError ∧
    (parseTable blankTailFile).getLast? = some [""] := by
  refine ⟨?_, ?_, ?_⟩ <;> decide

/-- C9, counterexample: `twoRowTableSwapped` is a permutation of
`twoRowTable` (the two rows swapped), yet version 1.1.2 returns
different results (`lastDate` is `"04.01.2022"` for the sorted order
and `"03.01.2022"` for the swapped order), so the calculator is not
invariant under permutations of the data rows. -/
theorem c9_permutation_counterexample :
    twoRowTable.Perm twoRowTableSwapped ∧
    calculateFromWorkingTimesV112 ⟨40, 0⟩ twoRowTable ≠
      calculateFromWorkingTimesV112 ⟨40, 0⟩ twoRowTableSwapped ∧
    (calculateFromWorkingTimesV112 ⟨40, 0⟩ twoRowTable).map CalcResult.lastDate =
      .ok (some "04.01.2022") ∧
    (calculateFromWorkingTimesV112 ⟨40, 0⟩ twoRowTableSwapped).map CalcResult.lastDate =
      .ok (some "03.01.2022") := by
  refine ⟨.swap' _ _ (.refl _), ?_, ?_, ?_⟩ <;> decide

/-- C5, counterexample: in version 1.0.0 the balance is *not* invariant
under replacing a `9003` row's times by other valid clock times.  In
`duplicateFlexTable` the first row equals the last non-vacation row, so
the loop breaks immediately and the balance is `-480`; changing the
third row's times from 08:00–09:00 to 07:00–09:00 removes the
duplication, the loop now processes all three rows, and the balance
becomes `-960`. -/
theorem c5_flex_day_counterexample :
    duplicateFlexTable.set 2 (setTimes flexRow "07:00" "09:00") =
      [flexRow, normalRow, setTimes flexRow "07:00" "09:00"] ∧
    rowCodeP flexRow = some 9003 ∧
    (calculateFromWorkingTimesV100 ⟨40, 0⟩ duplicateFlexTable).map CalcResult.kontoInMin =
      .ok (some (-480)) ∧
    (calculateFromWorkingTimesV100 ⟨40, 0⟩
        (duplicateFlexTable.set 2 (setTimes flexRow "07:00" "09:00"))).map
        CalcResult.kontoInMin =
      .ok (some (-960)) := by
  refine ⟨?_, ?_, ?_, ?_⟩ <;> decide

/-- C6, counterexample: version 1.1.2 renders `120` minutes as `"+2h"`,
not `"2h"` as the claim's example demands (the positive sign prefix is
always printed in 1.1.2). -/
theorem c6_label_counterexample :
    minutesToTimeString 120 = "+2h" ∧ "+2h" ≠ "2h" := by
  constructor <;> decide

/-- C6, amended: both renderers follow the specification's structural
rules (sign `"-"` exactly for negatives, hours omitted iff zero, single
space iff both parts shown, minutes omitted iff hours non-zero and
minutes zero), with the implementation-defined non-negative prefix
resolved as `"+"` for non-zero values in version 1.1.2 and as no prefix
in version 1.0.0; the examples evaluate to `"0min"`, `"-1h 15min"` and
`"+2h"` (1.1.2) respectively `"2h"` (1.0.0). -/
theorem c6_label_rendering_amended :
    (∀ k : Int, minutesToTimeString k = specLabelRender true k) ∧
    (∀ k : Int, minutesToTimeStringV100 k = specLabelRender false k) ∧
    minutesToTimeString 0 = "0min" ∧
    minutesToTimeString (-75) = "-1h 15min" ∧
    minutesToTimeString 120 = "+2h" ∧
    minutesToTimeStringV100 0 = "0min" ∧
    minutesToTimeStringV100 (-75) = "-1h 15min" ∧
    minutesToTimeStringV100 120 = "2h" := by
  refine ⟨minutesToTimeString_eq_spec, minutesToTimeStringV100_eq_spec, ?_, ?_, ?_, ?_, ?_, ?_⟩ <;>
    decide

/-- C3: in the calendar-week walk of version 1.1.2 (whose start day is
a Monday, expressed by `hmon`: the walk's day counter is `0` on a
Monday), a walked date with zero matching records and weekday
Monday–Friday (`getDay` between `1` and `5`) reduces the week's
expected minutes by exactly `wochenstunden * 60 / 5` and leaves the
balance untouched; a record-free Saturday changes nothing but the day
counter; a record-free Sunday books the week with the *unreduced*
expected minutes and only then resets them to `wochenstunden * 60`. -/
theorem c3_holiday_inference (w : Nat) (table : List (List String)) (day : Int)
    (st : WalkState) (hmon : jsWeekday (day - st.dayCounter) = 1)
    (hempty : dayEntries table (renderDate day) = []) :
    ∃ st', stepDay w (dayEntries table (renderDate day)) st = .ok st' ∧
      st'.dayCounter = st.dayCounter + 1 ∧
      (1 ≤ jsWeekday day ∧ jsWeekday day ≤ 5 →
        st'.workingHoursInMin = st.workingHoursInMin - ((w : Int) * 60) / 5 ∧
        st'.konto = st.konto ∧ st'.workingTimeInMin = st.workingTimeInMin) ∧
      (jsWeekday day = 6 →
        st' = { st with dayCounter := st.dayCounter + 1 }) ∧
      (jsWeekday day = 0 →
        st'.konto = jsAdd st.konto (jsSub st.workingTimeInMin (some st.workingHoursInMin)) ∧
        st'.workingHoursInMin = (w : Int) * 60) := by
  unfold jsWeekday at hmon ⊢
  rw [hempty]
  have h15 : st.dayCounter % 7 < 5 ↔ 1 ≤ (day + 3) % 7 ∧ (day + 3) % 7 ≤ 5 := by omega
  have h6 : st.dayCounter % 7 = 5 ↔ (day + 3) % 7 = 6 := by omega
  have h0 : st.dayCounter % 7 = 6 ↔ (day + 3) % 7 = 0 := by omega
  by_cases hlt : st.dayCounter % 7 < 5
  · have hne6 : ¬st.dayCounter % 7 = 6 := by omega
    refine ⟨⟨st.workingHoursInMin - ((w : Int) * 60) / 5, st.workingTimeInMin, st.konto,
        st.dayCounter + 1⟩,
      by simp [stepDay, hlt, hne6], rfl, fun _ => ⟨rfl, rfl, rfl⟩, ?_, ?_⟩
    · intro hwd; exact absurd (h6.2 hwd) (by omega)
    · intro hwd; exact absurd (h0.2 hwd) (by omega)
  · by_cases hsat : st.dayCounter % 7 = 5
    · have hne6 : ¬st.dayCounter % 7 = 6 := by omega
      refine ⟨⟨st.workingHoursInMin, st.workingTimeInMin, st.konto, st.dayCounter + 1⟩,
        by simp [stepDay, hlt, hne6], rfl, ?_, ?_, ?_⟩
      · intro hwd; exact absurd (h15.2 hwd) (by omega)
      · intro _; rfl
      · intro hwd; exact absurd (h0.2 hwd) (by omega)
    · have hsun : st.dayCounter % 7 = 6 := by omega
      refine ⟨⟨(w : Int) * 60, some 0,
          jsAdd st.konto (jsSub st.workingTimeInMin (some st.workingHoursInMin)),
          st.dayCounter + 1⟩,
        by simp [stepDay, hlt, hsun], rfl, ?_, ?_, fun _ => ⟨rfl, rfl⟩⟩
      · intro hwd; exact absurd (h15.2 hwd) (by omega)
      · intro hwd; exact absurd (h6.2 hwd) (by omega)

/-- C3, witness: Monday 03.01.2022 (day number `738463`) at the start
of a walk (day counter `0`, weekly quota 2400 minutes) with no matching
records: the quota drops by `40 * 60 / 5 = 480` minutes. -/
theorem c3_holiday_inference_witness :
    jsWeekday ((738463 : Int) - (WalkState.mk 2400 (some 0) (some 0) 0).dayCounter) = 1 ∧
    dayEntries [] (renderDate 738463) = [] ∧
    (∃ st', stepDay 40 (dayEntries [] (renderDate 738463))
        (WalkState.mk 2400 (some 0) (some 0) 0) = .ok st' ∧
      st'.dayCounter = (WalkState.mk 2400 (some 0) (some 0) 0).dayCounter + 1 ∧
      (1 ≤ jsWeekday 738463 ∧ jsWeekday 738463 ≤ 5 →
        st'.workingHoursInMin =
          (WalkState.mk 2400 (some 0) (some 0) 0).workingHoursInMin - ((40 : Nat) : Int) * 60 / 5 ∧
        st'.konto = (WalkState.mk 2400 (some 0) (some 0) 0).konto ∧
        st'.workingTimeInMin = (WalkState.mk 2400 (some 0) (some 0) 0).workingTimeInMin) ∧
      (jsWeekday 738463 = 6 →
        st' = { WalkState.mk 2400 (some 0) (some 0) 0 with dayCounter := 0 + 1 }) ∧
      (jsWeekday 738463 = 0 →
        st'.konto = jsAdd (some 0) (jsSub (some 0) (some 2400)) ∧
        st'.workingHoursInMin = ((40 : Nat) : Int) * 60)) :=
  ⟨by decide, rfl, c3_holiday_inference 40 [] 738463 (WalkState.mk 2400 (some 0) (some 0) 0)
    (by decide) rfl⟩

lemma getElem?_zero_of_isPrefixOf {r L : List String} (h : r.isPrefixOf L = true)
    (hlen : 0 < r.length) : r[0]? = L[0]? := by
  obtain ⟨u, rfl⟩ := List.isPrefixOf_iff_prefix.1 h
  rw [List.getElem?_append]
  simp [hlen]

/-- Wherever the version 1.0.0 loop stops with a result, the reported
date is the first column of `lastEntry` — the loop breaks at a row that
is a column-wise prefix of `lastEntry` and hence shares its date. -/
lemma v100Loop_lastDate (wMin : Int) (L : List String) :
    ∀ (l : List (List String)) (ld : Option String) (k s : JsNum) out,
      L ∈ l → v100Loop wMin L l ld k s = .ok out → out.1 = L[0]? := by
  intro l
  induction l with
  | nil => intro ld k s out hL; cases hL
  | cons entry rest ih =>
    intro ld k s out hL h
    simp only [v100Loop] at h
    cases hc : rowCode entry with
    | error e => rw [hc] at h; cases h
    | ok code =>
      rw [hc] at h
      cases h6 : entry[6]? with
      | none => rw [h6] at h; cases h
      | some t1 =>
        cases h7 : entry[7]? with
        | none => rw [h6, h7] at h; cases h
        | some t2 =>
          rw [h6, h7] at h
          dsimp only at h
          by_cases hbr : entry.isPrefixOf L = true
          · rw [if_pos hbr] at h
            cases h
            have hlen : 0 < entry.length := by
              obtain ⟨hlt6, -⟩ := List.getElem?_eq_some_iff.1 h6
              omega
            have h00 : entry[0]? = L[0]? := getElem?_zero_of_isPrefixOf hbr hlen
            show (if entry[0]? ≠ ld then entry[0]? else ld) = L[0]?
            by_cases hd : entry[0]? ≠ ld
            · rw [if_pos hd, h00]
            · rw [if_neg hd]
              have heq : entry[0]? = ld := not_not.1 hd
              exact heq ▸ h00
          · rw [if_neg hbr] at h
            have hLrest : L ∈ rest := by
              rcases List.mem_cons.1 hL with rfl | hr
              · exact absurd (List.isPrefixOf_iff_prefix.2 (List.prefix_refl L)) hbr
              · exact hr
            exact ih _ _ _ _ hLrest h

/-- C4: whenever `calculateFromWorkingTimes` returns a result, its
`lastDate` is the first column of the last row (in table order) whose
extracted category code is not `9001` — in both versions.  In
particular, when the final row of the table is a vacation row (code
`9001`), `lastDate` is the date of the latest non-`9001` row, not the
date of the table's final row. -/
theorem c4_last_date_nonvacation (cfg : Config) (t : List (List String)) :
    (∀ res, calculateFromWorkingTimesV112 cfg t = .ok res →
      res.lastDate = (nonVacRows t).getLast?.bind (fun r => r[0]?)) ∧
    (∀ res, calculateFromWorkingTimesV100 cfg t = .ok res →
      res.lastDate = (nonVacRows t).getLast?.bind (fun r => r[0]?)) := by
  constructor
  · intro res h
    unfold calculateFromWorkingTimesV112 at h
    cases hf : filterNonVacation t with
    | error e => simp only [hf] at h; cases h
    | ok l =>
      simp only [hf] at h
      have hl := filterNonVacation_ok_eq hf
      subst hl
      cases hlast : (nonVacRows t).getLast? with
      | none => simp only [hlast] at h; cases h
      | some lastRow =>
        simp only [hlast] at h
        cases h0 : lastRow[0]? with
        | none => simp only [h0] at h; cases h
        | some lwds =>
          simp only [h0] at h
          cases hd : dateStringToDays lwds with
          | none => simp only [hd] at h; cases h
          | some lastDay =>
            simp only [hd] at h
            cases hh : t.head? with
            | none => simp only [hh] at h; cases h
            | some firstRow =>
              simp only [hh] at h
              cases hh0 : firstRow[0]? with
              | none => simp only [hh0] at h; cases h
              | some fds =>
                simp only [hh0] at h
                cases hfd : dateStringToDays fds with
                | none => simp only [hfd] at h; cases h
                | some firstDay =>
                  simp only [hfd] at h
                  cases hw : walkAux cfg.wochenstunden (renderDate (sundayAfter lastDay))
                      (sundayAfter lastDay - mondayBefore firstDay + 2).toNat
                      (mondayBefore firstDay) t
                      ⟨(cfg.wochenstunden : Int) * 60, some 0, some 0, 0⟩ with
                  | error e => simp only [hw] at h; cases h
                  | ok konto =>
                    simp only [hw] at h
                    cases h
                    simp [h0]
  · intro res h
    unfold calculateFromWorkingTimesV100 at h
    cases hh : t.head? with
    | none => simp only [hh] at h; cases h
    | some firstRow =>
      simp only [hh] at h
      cases hf : filterNonVacation t with
      | error e => simp only [hf] at h; cases h
      | ok l =>
        simp only [hf] at h
        have hl := filterNonVacation_ok_eq hf
        subst hl
        cases hlast : (nonVacRows t).getLast? with
        | none => simp only [hlast] at h; cases h
        | some lastEntry =>
          simp only [hlast] at h
          have hmem : lastEntry ∈ t := by
            have hne : nonVacRows t ≠ [] := by
              intro hnil
              rw [hnil] at hlast
              cases hlast
            have := List.getLast?_eq_getLast _ hne
            rw [hlast] at this
            cases this
            have hmem0 : (nonVacRows t).getLast hne ∈
                t.filter (fun row => rowCodeP row ≠ some 9001) := List.getLast_mem hne
            exact List.mem_of_mem_filter hmem0
          cases hloop : v100Loop ((cfg.wochenstunden : Int) * 60) lastEntry t
              firstRow[0]? (some 0) (some 0) with
          | error e => simp only [hloop] at h; cases h
          | ok out =>
            simp only [hloop] at h
            cases h
            have := v100Loop_lastDate ((cfg.wochenstunden : Int) * 60) lastEntry t
              firstRow[0]? (some 0) (some 0) out hmem hloop
            simp [this]

/-- C4, witness: on the example table extended by a vacation row
(`9001 Urlaub`) on 10.01.2022, version 1.1.2 succeeds and reports
`lastDate = "07.01.2022"`, the date of the last non-vacation row, even
though the table's final row is dated 10.01.2022. -/
theorem c4_last_date_witness :
    calculateFromWorkingTimesV112 ⟨40, 0⟩ vacationTailTable =
      .ok ⟨"+2h 30min", some 150, some "07.01.2022"⟩ ∧
    (⟨"+2h 30min", some 150, some "07.01.2022"⟩ : CalcResult).lastDate =
      (nonVacRows vacationTailTable).getLast?.bind (fun r => r[0]?) :=
  ⟨by decide,
    (c4_last_date_nonvacation ⟨40, 0⟩ vacationTailTable).1
      ⟨"+2h 30min", some 150, some "07.01.2022"⟩ (by decide)⟩

/-! ## Permutation invariance of the version 1.1.2 walk -/

/-- An entry that the summation loop can process without throwing:
it has a category label, and unless its code is `9003` it has both time
columns. -/
def goodEntry (e : List String) : Bool :=
  (e[1]?).isSome && (rowCodeP e == some 9003 || ((e[6]?).isSome && (e[7]?).isSome))

/-- The worked minutes one processable entry contributes: zero for a
`9003` entry, the measured time otherwise. -/
def entryContrib (e : List String) : JsNum :=
  if rowCodeP e = some 9003 then some 0
  else
    match e[6]?, e[7]? with
    | some t1, some t2 => minutesBetweenTimeStrings t1 t2
    | _, _ => some 0

/-- Total contribution of a list of entries. -/
def entriesSum (l : List (List String)) : JsNum :=
  l.foldr (fun e acc => jsAdd (entryContrib e) acc) (some 0)

lemma sumEntries_char (l : List (List String)) (acc : JsNum) :
    sumEntries l acc =
      if l.all goodEntry then .ok (jsAdd acc (entriesSum l)) else .error .typeError := by
  induction l generalizing acc with
  | nil => simp [sumEntries, entriesSum, jsAdd_zero_right]
  | cons e rest ih =>
    simp only [sumEntries]
    cases h1 : e[1]? with
    | none =>
      have : rowCode e = .error .typeError := by simp [rowCode, h1]
      rw [this]
      have : goodEntry e = false := by simp [goodEntry, h1]
      simp [this]
    | some label =>
      have hsome : (e[1]?).isSome := by rw [h1]; rfl
      rw [rowCode_of_isSome hsome]
      by_cases h9 : rowCodeP e = some 9003
      · have hg : goodEntry e = true := by simp [goodEntry, h1, h9]
        simp only [h9, ne_eq, not_true_eq_false, if_neg, reduceIte]
        rw [ih]
        have hc : entryContrib e = some 0 := by simp [entryContrib, h9]
        simp [hg, entriesSum, hc, jsAdd_zero_left]
      · simp only [ne_eq, h9, not_false_eq_true, if_pos, reduceIte]
        cases h6 : e[6]? with
        | none =>
          have hg : goodEntry e = false := by simp [goodEntry, h1, h9, h6]
          simp [hg]
        | some t1 =>
          cases h7 : e[7]? with
          | none =>
            have hg : goodEntry e = false := by simp [goodEntry, h1, h9, h6, h7]
            simp [hg]
          | some t2 =>
            have hg : goodEntry e = true := by simp [goodEntry, h1, h9, h6, h7]
            dsimp only
            rw [ih]
            have hc : entryContrib e = minutesBetweenTimeStrings t1 t2 := by
              simp [entryContrib, h9, h6, h7]
            by_cases hall : rest.all goodEntry = true
            · simp [hall, hg, entriesSum, hc, jsAdd_assoc]
            · simp [hall, hg, Bool.eq_false_iff.2 hall]

lemma all_of_perm {l l' : List (List String)} (h : l.Perm l') (p : List String → Bool) :
    l.all p = l'.all p := by
  rw [Bool.eq_iff_iff, List.all_eq_true, List.all_eq_true]
  exact ⟨fun H x hx => H x (h.mem_iff.2 hx), fun H x hx => H x (h.mem_iff.1 hx)⟩

lemma entriesSum_perm {l l' : List (List String)} (h : l.Perm l') :
    entriesSum l = entriesSum l' := by
  induction h with
  | nil => rfl
  | cons x _ ih => simp only [entriesSum, List.foldr_cons] at *; rw [ih]
  | swap x y l =>
    simp only [entriesSum, List.foldr_cons]
    rw [← jsAdd_assoc, ← jsAdd_assoc]
    congr 1
    cases hx : entryContrib x <;> cases hy : entryContrib y <;> simp [jsAdd] <;> ring
  | trans _ _ ih1 ih2 => rw [ih1, ih2]

lemma sumEntries_perm {l l' : List (List String)} (h : l.Perm l') (acc : JsNum) :
    sumEntries l acc = sumEntries l' acc := by
  rw [sumEntries_char, sumEntries_char, all_of_perm h, entriesSum_perm h]

lemma stepDay_perm (w : Nat) (st : WalkState) {t t' : List (List String)}
    (h : t.Perm t') (dateStr : String) :
    stepDay w (dayEntries t dateStr) st = stepDay w (dayEntries t' dateStr) st := by
  have hp : (dayEntries t dateStr).Perm (dayEntries t' dateStr) := h.filter _
  have hempty : (dayEntries t dateStr).isEmpty = (dayEntries t' dateStr).isEmpty := by
    rw [Bool.eq_iff_iff, List.isEmpty_iff, List.isEmpty_iff]
    constructor
    · intro he; exact (he ▸ hp).symm.eq_nil
    · intro he; exact (he ▸ hp.symm).symm.eq_nil
  unfold stepDay
  rw [hempty, sumEntries_perm hp]

lemma walkAux_perm (w : Nat) (endStr : String) :
    ∀ (fuel : Nat) (day : Int) {t t' : List (List String)},
      t.Perm t' → ∀ st : WalkState,
      walkAux w endStr fuel day t st = walkAux w endStr fuel day t' st := by
  intro fuel
  induction fuel with
  | zero => intro day t t' _ st; rfl
  | succ fuel ih =>
    intro day t t' h st
    simp only [walkAux]
    rw [stepDay_perm w st h (renderDate day)]
    cases stepDay w (dayEntries t' (renderDate day)) st with
    | error e => rfl
    | ok st' =>
      by_cases hend : (renderDate day == endStr) = true
      · simp [hend]
      · simp only [Bool.not_eq_true] at hend
        simp only [hend]
        exact ih (day + 1) (h.filter _) st'

/-- C9, amended: the version 1.1.2 calculation is invariant under
permutations of the data rows that preserve the first row's date string
and the first column of the positionally last non-`9001` row (the
counterexample shows invariance fails for general permutations: the
reported `lastDate` is positional, and the walk range is derived from
the first row and the last non-vacation row). -/
theorem c9_permutation_amended (cfg : Config) (t t' : List (List String))
    (hperm : t.Perm t')
    (hfirst : t.head?.bind (fun r => r[0]?) = t'.head?.bind (fun r => r[0]?))
    (hlast : (nonVacRows t).getLast?.bind (fun r => r[0]?) =
      (nonVacRows t').getLast?.bind (fun r => r[0]?)) :
    calculateFromWorkingTimesV112 cfg t = calculateFromWorkingTimesV112 cfg t' := by
  unfold calculateFromWorkingTimesV112
  cases hf : filterNonVacation t with
  | error e =>
    have he := filterNonVacation_error_eq hf
    subst he
    have hf' : filterNonVacation t' = .error .typeError := by
      cases hg : filterNonVacation t' with
      | error e' => rw [filterNonVacation_error_eq hg]
      | ok l' =>
        obtain ⟨r, hr, hnone⟩ := filterNonVacation_error_exists hf
        have := filterNonVacation_ok_forall hg r (hperm.mem_iff.1 hr)
        rw [hnone] at this
        cases this
    rw [hf']
  | ok l =>
    have hf' : filterNonVacation t' = .ok (nonVacRows t') :=
      filterNonVacation_isOk fun r hr =>
        filterNonVacation_ok_forall hf r (hperm.mem_iff.2 hr)
    rw [hf']
    have hl := filterNonVacation_ok_eq hf
    subst hl
    dsimp only
    have hpnv : (nonVacRows t).Perm (nonVacRows t') := hperm.filter _
    cases hlst : (nonVacRows t).getLast? with
    | none =>
      have hnil : nonVacRows t = [] := List.getLast?_eq_none_iff.1 hlst
      have hnil' : nonVacRows t' = [] := (hnil ▸ hpnv).symm.eq_nil
      rw [List.getLast?_eq_none_iff.2 hnil']
    | some lastRow =>
      have hne' : nonVacRows t' ≠ [] := by
        intro hnil'
        have : nonVacRows t = [] := (hnil' ▸ hpnv.symm).symm.eq_nil
        rw [List.getLast?_eq_none_iff.2 this] at hlst
        cases hlst
      obtain ⟨lastRow', hlst'⟩ : ∃ r, (nonVacRows t').getLast? = some r :=
        ⟨_, List.getLast?_eq_getLast _ hne'⟩
      rw [hlst']
      dsimp only
      have h00 : lastRow[0]? = lastRow'[0]? := by
        rw [hlst, hlst'] at hlast
        exact hlast
      rw [← h00]
      cases h0 : lastRow[0]? with
      | none => rfl
      | some lwds =>
        dsimp only
        cases dateStringToDays lwds with
        | none => rfl
        | some lastDay =>
          dsimp only
          cases t with
          | nil =>
            have : t' = [] := hperm.symm.eq_nil
            subst this
            rfl
          | cons r0 rest =>
            cases t' with
            | nil => exact absurd hperm.eq_nil (by simp)
            | cons r0' rest' =>
              simp only [List.head?_cons, Option.some_bind] at hfirst
              simp only [List.head?_cons]
              rw [← hfirst]
              cases r0[0]? with
              | none => rfl
              | some fds =>
                dsimp only
                cases dateStringToDays fds with
                | none => rfl
                | some firstDay =>
                  dsimp only
                  rw [walkAux_perm cfg.wochenstunden _ _ _ hperm _]

/-- C9, witness: swapping the two equal-dated middle rows of a four-row
table (which preserves the first row's date and the last non-vacation
row) leaves the version 1.1.2 result unchanged. -/
theorem c9_permutation_witness :
    ([["03.01.2022", "1000 Normal", "", "", "", "", "08:00", "16:30"],
      ["04.01.2022", "1000 Normal", "", "", "", "", "08:00", "16:30"],
      ["04.01.2022", "1000 Normal", "", "", "", "", "18:00", "19:00"],
      ["05.01.2022", "1000 Normal", "", "", "", "", "08:00", "16:30"]] :
        List (List String)).Perm
      [["03.01.2022", "1000 Normal", "", "", "", "", "08:00", "16:30"],
       ["04.01.2022", "1000 Normal", "", "", "", "", "18:00", "19:00"],
       ["04.01.2022", "1000 Normal", "", "", "", "", "08:00", "16:30"],
       ["05.01.2022", "1000 Normal", "", "", "", "", "08:00", "16:30"]] ∧
    calculateFromWorkingTimesV112 ⟨40, 0⟩
      [["03.01.2022", "1000 Normal", "", "", "", "", "08:00", "16:30"],
       ["04.01.2022", "1000 Normal", "", "", "", "", "08:00", "16:30"],
       ["04.01.2022", "1000 Normal", "", "", "", "", "18:00", "19:00"],
       ["05.01.2022", "1000 Normal", "", "", "", "", "08:00", "16:30"]] =
    calculateFromWorkingTimesV112 ⟨40, 0⟩
      [["03.01.2022", "1000 Normal", "", "", "", "", "08:00", "16:30"],
       ["04.01.2022", "1000 Normal", "", "", "", "", "18:00", "19:00"],
       ["04.01.2022", "1000 Normal", "", "", "", "", "08:00", "16:30"],
       ["05.01.2022", "1000 Normal", "", "", "", "", "08:00", "16:30"]] :=
  ⟨by decide,
    c9_permutation_amended ⟨40, 0⟩ _ _ (by decide) (by decide) (by decide)⟩

/-! ## Success of the calculation on well-formed tables -/

/-- The day number of a row's date cell. -/
def rowDay (r : List String) : Option Int :=
  (r[0]?).bind dateStringToDays

/-- A row of the shape the export actually produces: at least the eight
referenced columns, and a date cell that parses to a day number. -/
def goodRow (r : List String) : Bool :=
  (8 ≤ r.length) && (rowDay r).isSome

/-- Day numbers in non-decreasing order. -/
def chainLe : List Int → Bool
  | [] => true
  | [_] => true
  | a :: b :: rest => (a ≤ b) && chainLe (b :: rest)

/-- The rows' dates are in non-decreasing order. -/
abbrev DatesSorted (t : List (List String)) : Prop :=
  chainLe (t.filterMap rowDay) = true

lemma isSome_getElemQ {α : Type} (l : List α) (i : Nat) (h : i < l.length) :
    (l[i]?).isSome := by
  cases hg : l[i]? with
  | none => exact absurd (List.getElem?_eq_none_iff.1 hg) (by omega)
  | some a => rfl

lemma goodRow_length {r : List String} (h : goodRow r = true) : 8 ≤ r.length := by
  simp only [goodRow, Bool.and_eq_true, decide_eq_true_eq] at h
  exact h.1

lemma goodRow_goodEntry {r : List String} (h : goodRow r = true) : goodEntry r = true := by
  have hlen := goodRow_length h
  have h1 := isSome_getElemQ r 1 (by omega)
  have h6 := isSome_getElemQ r 6 (by omega)
  have h7 := isSome_getElemQ r 7 (by omega)
  simp [goodEntry, h1, h6, h7]

lemma stepDay_ok (w : Nat) (entries : List (List String)) (st : WalkState)
    (h : ∀ e ∈ entries, goodRow e = true) :
    ∃ st', stepDay w entries st = .ok st' := by
  unfold stepDay
  by_cases he : entries.isEmpty
  · by_cases hlt : st.dayCounter % 7 < 5 <;> by_cases h6 : st.dayCounter % 7 = 6 <;>
      simp [he, hlt, h6]
  · have hall : entries.all goodEntry = true :=
      List.all_eq_true.2 fun e hx => goodRow_goodEntry (h e hx)
    rw [sumEntries_char]
    by_cases h6 : st.dayCounter % 7 = 6 <;> simp [he, hall, h6]

lemma mondayBefore_le (z : Int) : mondayBefore z ≤ z := by
  unfold mondayBefore jsWeekday
  by_cases h : (z + 3) % 7 ≠ 1 <;> simp [h] <;> omega

lemma le_sundayAfter (z : Int) : z ≤ sundayAfter z := by
  unfold sundayAfter jsWeekday
  by_cases h : (z + 3) % 7 ≠ 0 <;> simp [h] <;> omega

lemma walkAux_ok (w : Nat) (endDay : Int) :
    ∀ (fuel : Nat) (day : Int) (t : List (List String)) (st : WalkState),
      (∀ r ∈ t, goodRow r = true) → day ≤ endDay → (endDay - day).toNat < fuel →
      ∃ konto, walkAux w (renderDate endDay) fuel day t st = .ok konto := by
  intro fuel
  induction fuel with
  | zero => intro day t st _ _ hlt; omega
  | succ fuel ih =>
    intro day t st hgood hle hlt
    have hentries : ∀ e ∈ dayEntries t (renderDate day), goodRow e = true :=
      fun e he => hgood e (List.mem_of_mem_filter he)
    obtain ⟨st', hst'⟩ := stepDay_ok w (dayEntries t (renderDate day)) st hentries
    simp only [walkAux, hst']
    by_cases hend : (renderDate day == renderDate endDay) = true
    · exact ⟨st'.konto, by simp [hend]⟩
    · have hne : day ≠ endDay := by
        intro heq
        subst heq
        simp at hend
      have hrest : ∀ r ∈ dayRest t (renderDate day), goodRow r = true :=
        fun r hr => hgood r (List.mem_of_mem_filter hr)
      obtain ⟨konto, hk⟩ := ih (day + 1) (dayRest t (renderDate day)) st' hrest
        (by omega) (by omega)
      refine ⟨konto, ?_⟩
      simp only [Bool.not_eq_true] at hend
      simp [hend, hk]

lemma chainLe_head_le : ∀ {d : Int} {ds : List Int} {x : Int},
    chainLe (d :: ds) = true → x ∈ ds → d ≤ x := by
  intro d ds
  induction ds generalizing d with
  | nil => intro x _ hx; cases hx
  | cons b rest ih =>
    intro x hc hx
    simp only [chainLe, Bool.and_eq_true, decide_eq_true_eq] at hc
    rcases List.mem_cons.1 hx with rfl | hx'
    · exact hc.1
    · exact le_trans hc.1 (ih hc.2 hx')

lemma rowDay_isSome_of_goodRow {r : List String} (h : goodRow r = true) :
    ∃ d, rowDay r = some d := by
  simp only [goodRow, Bool.and_eq_true] at h
  exact Option.isSome_iff_exists.1 h.2

lemma rowDay_shape {r : List String} {d : Int} (h : rowDay r = some d) :
    ∃ s, r[0]? = some s ∧ dateStringToDays s = some d := by
  cases h0 : r[0]? with
  | none => rw [rowDay, h0] at h; cases h
  | some s => rw [rowDay, h0] at h; exact ⟨s, rfl, h⟩

/-- On a non-empty table of well-formed rows with non-decreasing dates
and at least one non-vacation row, the version 1.1.2 calculation
returns a result. -/
lemma calcV112_ok (cfg : Config) (t : List (List String)) (hne : t ≠ [])
    (hgood : ∀ r ∈ t, goodRow r = true) (hsort : DatesSorted t)
    (hnv : ∃ r ∈ t, rowCodeP r ≠ some 9001) :
    ∃ res, calculateFromWorkingTimesV112 cfg t = .ok res := by
  have hf : filterNonVacation t = .ok (nonVacRows t) :=
    filterNonVacation_isOk fun r hr =>
      isSome_getElemQ r 1 (by have := goodRow_length (hgood r hr); omega)
  have hnvne : nonVacRows t ≠ [] := by
    obtain ⟨r, hr, hc⟩ := hnv
    intro hnil
    have : r ∈ nonVacRows t := List.mem_filter.2 ⟨hr, by simp [hc]⟩
    rw [hnil] at this
    cases this
  obtain ⟨lastRow, hlst⟩ : ∃ r, (nonVacRows t).getLast? = some r :=
    ⟨_, List.getLast?_eq_getLast _ hnvne⟩
  have hlmem : lastRow ∈ t := by
    have h1 := List.getLast?_eq_getLast _ hnvne
    rw [hlst] at h1
    cases h1
    have hmem0 : (nonVacRows t).getLast hnvne ∈
        t.filter (fun row => rowCodeP row ≠ some 9001) := List.getLast_mem hnvne
    exact List.mem_of_mem_filter hmem0
  obtain ⟨dL, hdL⟩ := rowDay_isSome_of_goodRow (hgood lastRow hlmem)
  obtain ⟨lwds, hlw0, hlwp⟩ := rowDay_shape hdL
  cases t with
  | nil => exact absurd rfl hne
  | cons r0 rest =>
    obtain ⟨d0, hd0⟩ := rowDay_isSome_of_goodRow (hgood r0 (List.mem_cons_self r0 rest))
    obtain ⟨fds, hf0, hfp⟩ := rowDay_shape hd0
    have hd0dL : d0 ≤ dL := by
      rcases List.mem_cons.1 hlmem with rfl | hmem'
      · rw [hd0] at hdL; cases hdL; rfl
      · have hchain : chainLe (d0 :: rest.filterMap rowDay) = true := by
          have : (r0 :: rest).filterMap rowDay = d0 :: rest.filterMap rowDay := by
            simp [List.filterMap_cons, hd0]
          rw [DatesSorted, this] at hsort
          exact hsort
        exact chainLe_head_le hchain
          (List.mem_filterMap.2 ⟨lastRow, hmem', hdL⟩)
    have hrange : mondayBefore d0 ≤ sundayAfter dL :=
      le_trans (mondayBefore_le d0) (le_trans hd0dL (le_sundayAfter dL))
    obtain ⟨konto, hk⟩ := walkAux_ok cfg.wochenstunden (sundayAfter dL)
      (sundayAfter dL - mondayBefore d0 + 2).toNat (mondayBefore d0) (r0 :: rest)
      ⟨(cfg.wochenstunden : Int) * 60, some 0, some 0, 0⟩ hgood hrange (by omega)
    refine ⟨⟨jsKontoString konto, konto, some lwds⟩, ?_⟩
    unfold calculateFromWorkingTimesV112
    simp only [hf, hlst, hlw0, hlwp, List.head?_cons, hf0, hfp, hk]

/-- The version 1.0.0 row loop succeeds on well-formed rows. -/
lemma v100Loop_ok (wMin : Int) (L : List String) :
    ∀ (l : List (List String)) (ld : Option String) (k s : JsNum),
      (∀ r ∈ l, goodRow r = true) →
      ∃ out, v100Loop wMin L l ld k s = .ok out := by
  intro l
  induction l with
  | nil => intro ld k s _; exact ⟨_, rfl⟩
  | cons entry rest ih =>
    intro ld k s hgood
    have hlen := goodRow_length (hgood entry (List.mem_cons_self entry rest))
    have h1 := isSome_getElemQ entry 1 (by omega)
    obtain ⟨t1, h6⟩ := Option.isSome_iff_exists.1 (isSome_getElemQ entry 6 (by omega))
    obtain ⟨t2, h7⟩ := Option.isSome_iff_exists.1 (isSome_getElemQ entry 7 (by omega))
    simp only [v100Loop, rowCode_of_isSome h1, h6, h7]
    by_cases hbr : entry.isPrefixOf L = true
    · simp [hbr]
    · simp only [Bool.not_eq_true] at hbr
      simp only [hbr, Bool.false_eq_true, if_neg, reduceIte]
      exact ih _ _ _ fun r hr => hgood r (List.mem_cons_of_mem entry hr)

/-- On a non-empty table of well-formed rows with at least one
non-vacation row, the version 1.0.0 calculation returns a result. -/
lemma calcV100_ok (cfg : Config) (t : List (List String)) (hne : t ≠ [])
    (hgood : ∀ r ∈ t, goodRow r = true)
    (hnv : ∃ r ∈ t, rowCodeP r ≠ some 9001) :
    ∃ res, calculateFromWorkingTimesV100 cfg t = .ok res := by
  have hf : filterNonVacation t = .ok (nonVacRows t) :=
    filterNonVacation_isOk fun r hr =>
      isSome_getElemQ r 1 (by have := goodRow_length (hgood r hr); omega)
  have hnvne : nonVacRows t ≠ [] := by
    obtain ⟨r, hr, hc⟩ := hnv
    intro hnil
    have : r ∈ nonVacRows t := List.mem_filter.2 ⟨hr, by simp [hc]⟩
    rw [hnil] at this
    cases this
  obtain ⟨lastEntry, hlst⟩ : ∃ r, (nonVacRows t).getLast? = some r :=
    ⟨_, List.getLast?_eq_getLast _ hnvne⟩
  cases t with
  | nil => exact absurd rfl hne
  | cons r0 rest =>
    obtain ⟨out, hloop⟩ := v100Loop_ok ((cfg.wochenstunden : Int) * 60) lastEntry
      (r0 :: rest) r0[0]? (some 0) (some 0) hgood
    obtain ⟨ld, k, su⟩ := out
    refine ⟨⟨jsKontoStringV100 (jsAdd (jsAdd k (jsSub su
          (some ((cfg.wochenstunden : Int) * 60 / 5)))) (some (jsRoundTimes60 cfg.startStunden))),
      jsAdd (jsAdd k (jsSub su (some ((cfg.wochenstunden : Int) * 60 / 5))))
        (some (jsRoundTimes60 cfg.startStunden)), ld⟩, ?_⟩
    unfold calculateFromWorkingTimesV100
    simp only [List.head?_cons, hf, hlst, hloop]

/-- C10: on every non-empty table of well-formed rows (at least eight
columns, parseable `DD.MM.YYYY` dates) in non-decreasing date order
that contains a row with category code other than `9001`, the
day-by-day do-while walk of version 1.1.2 terminates: starting at the
Monday on or before the first row's date it reaches the Sunday on or
after the last non-`9001` row's date after finitely many steps, and the
calculation returns a result instead of running out of fuel. -/
theorem c10_walk_termination (cfg : Config) (t : List (List String)) (hne : t ≠ [])
    (hgood : ∀ r ∈ t, goodRow r = true) (hsort : DatesSorted t)
    (hnv : ∃ r ∈ t, rowCodeP r ≠ some 9001) :
    ∃ res, calculateFromWorkingTimesV112 cfg t = .ok res :=
  calcV112_ok cfg t hne hgood hsort hnv

/-- C10, witness: the walk terminates on the five-row example table. -/
theorem c10_walk_termination_witness :
    exampleTable ≠ [] ∧ (∀ r ∈ exampleTable, goodRow r = true) ∧
    DatesSorted exampleTable ∧ (∃ r ∈ exampleTable, rowCodeP r ≠ some 9001) ∧
    (∃ res, calculateFromWorkingTimesV112 ⟨40, 0⟩ exampleTable = .ok res) :=
  ⟨by decide, by decide, by decide, by decide,
    c10_walk_termination ⟨40, 0⟩ exampleTable (by decide) (by decide) (by decide) (by decide)⟩

/-- C7, counterexample: the claim "fails if and only if the table has
zero data rows" is wrong in the only-if direction: a table with one
data row whose category is `9001 Urlaub` makes the non-vacation filter
result empty, and both versions throw a `TypeError` (indexing `[0]` of
`undefined`) although a data row is present. -/
theorem c7_failure_counterexample :
    ([["03.01.2022", "9001 Urlaub", "", "", "", "", "08:00", "16:30"]] :
      List (List String)) ≠ [] ∧
    calculateFromWorkingTimesV112 ⟨40, 0⟩
      [["03.01.2022", "9001 Urlaub", "", "", "", "", "08:00", "16:30"]] =
      .error .typeError ∧
    calculateFromWorkingTimesV100 ⟨40, 0⟩
      [["03.01.2022", "9001 Urlaub", "", "", "", "", "08:00", "16:30"]] =
      .error .typeError := by
  refine ⟨?_, ?_, ?_⟩ <;> decide

/-- C7, amended: with zero data rows both versions fail hard
(`TypeError`), as the claim says; but a table with data rows can also
fail — it fails whenever no row survives the non-`9001` filter (and on
malformed rows, see C8).  On tables of well-formed rows that contain at
least one non-`9001` row the calculation does not fail (version 1.1.2
additionally needs the dates in non-decreasing order so that its walk
terminates). -/
theorem c7_failure_amended :
    (∀ cfg : Config, calculateFromWorkingTimesV112 cfg [] = .error .typeError) ∧
    (∀ cfg : Config, calculateFromWorkingTimesV100 cfg [] = .error .typeError) ∧
    (∀ (cfg : Config) (t : List (List String)), t ≠ [] →
      (∀ r ∈ t, goodRow r = true) → DatesSorted t →
      (∃ r ∈ t, rowCodeP r ≠ some 9001) →
      ∃ res, calculateFromWorkingTimesV112 cfg t = .ok res) ∧
    (∀ (cfg : Config) (t : List (List String)), t ≠ [] →
      (∀ r ∈ t, goodRow r = true) →
      (∃ r ∈ t, rowCodeP r ≠ some 9001) →
      ∃ res, calculateFromWorkingTimesV100 cfg t = .ok res) :=
  ⟨fun _ => rfl, fun _ => rfl,
    fun cfg t hne hgood hsort hnv => calcV112_ok cfg t hne hgood hsort hnv,
    fun cfg t hne hgood hnv => calcV100_ok cfg t hne hgood hnv⟩

/-- C7, witness: the example table is non-empty with well-formed sorted
rows and a non-`9001` row, and both versions succeed on it; the empty
table fails in both versions. -/
theorem c7_failure_witness :
    calculateFromWorkingTimesV112 ⟨40, 0⟩ [] = .error .typeError ∧
    calculateFromWorkingTimesV100 ⟨40, 0⟩ [] = .error .typeError ∧
    (∃ res, calculateFromWorkingTimesV112 ⟨40, 0⟩ exampleTable = .ok res) ∧
    (∃ res, calculateFromWorkingTimesV100 ⟨40, 0⟩ exampleTable = .ok res) :=
  ⟨c7_failure_amended.1 ⟨40, 0⟩, c7_failure_amended.2.1 ⟨40, 0⟩,
    c7_failure_amended.2.2.1 ⟨40, 0⟩ exampleTable (by decide) (by decide) (by decide) (by decide),
    c7_failure_amended.2.2.2 ⟨40, 0⟩ exampleTable (by decide) (by decide) (by decide)⟩

/-! ## Replacing a flex-day row's times (claim C5)

`RowRel r r' x y` holds when position-wise the two tables carry either
the identical row or the original flex row `r` versus its
time-modified copy `r'`.  The three abstract facts `r'[0]? = r[0]?`,
`rowCode r' = rowCode r` and `rowCodeP r = some 9003` are all the walk
can observe about the difference. -/

/-- Pointwise relation between a table and the table with some
occurrences of `r` replaced by `r'`. -/
def RowRel (r r' x y : List String) : Prop :=
  y = x ∨ (x = r ∧ y = r')

lemma rowRel_col0 {r r' x y : List String} (hcol0 : r'[0]? = r[0]?)
    (h : RowRel r r' x y) : y[0]? = x[0]? := by
  rcases h with rfl | ⟨rfl, rfl⟩
  · rfl
  · exact hcol0

lemma rowRel_rowCode {r r' x y : List String} (hcode : rowCode r' = rowCode r)
    (h : RowRel r r' x y) : rowCode y = rowCode x := by
  rcases h with rfl | ⟨rfl, rfl⟩
  · rfl
  · exact hcode

lemma forall2_rowRel_filter {r r' : List String} {p : List String → Bool}
    (hp : ∀ x y, RowRel r r' x y → p x = p y) :
    ∀ {l l'}, List.Forall₂ (RowRel r r') l l' →
      List.Forall₂ (RowRel r r') (l.filter p) (l'.filter p) := by
  intro l l' h
  induction h with
  | nil => exact .nil
  | cons hxy hrest ih =>
    rename_i x y l₁ l₂
    rw [List.filter_cons, List.filter_cons, ← hp x y hxy]
    by_cases hpx : p x = true
    · simp only [hpx, if_pos]
      exact .cons hxy ih
    · simp only [Bool.not_eq_true] at hpx
      simp only [hpx, Bool.false_eq_true, if_neg, reduceIte]
      exact ih

lemma rowCode_ok_imp {e : List String} {c : Option Nat} (h : rowCode e = .ok c) :
    rowCodeP e = c ∧ (e[1]?).isSome := by
  cases h1 : e[1]? with
  | none => rw [rowCode, h1] at h; cases h
  | some label =>
    rw [rowCode, h1] at h
    cases h
    exact ⟨by simp [rowCodeP, h1], by simp [h1]⟩

lemma sumEntries_rowRel {r r' : List String} (hcode : rowCode r' = rowCode r)
    (h9 : rowCodeP r = some 9003) :
    ∀ {l l'}, List.Forall₂ (RowRel r r') l l' → ∀ acc,
      sumEntries l acc = sumEntries l' acc := by
  have hrok : rowCode r = .ok (some 9003) := rowCode_of_rowCodeP h9
  have h9' : rowCodeP r' = some 9003 := (rowCode_ok_imp (hcode.trans hrok)).1
  have hr1 : (r[1]?).isSome := (rowCode_ok_imp hrok).2
  have hr1' : ((r')[1]?).isSome := (rowCode_ok_imp (hcode.trans hrok)).2
  have hge : ∀ x y, RowRel r r' x y → goodEntry y = goodEntry x := by
    intro x y hxy
    rcases hxy with h | ⟨hx, hy⟩
    · rw [h]
    · subst hx
      subst hy
      simp [goodEntry, h9, h9', hr1, hr1']
  have hce : ∀ x y, RowRel r r' x y → entryContrib y = entryContrib x := by
    intro x y hxy
    rcases hxy with h | ⟨hx, hy⟩
    · rw [h]
    · subst hx
      subst hy
      simp [entryContrib, h9, h9']
  have key : ∀ {l l'}, List.Forall₂ (RowRel r r') l l' →
      l.all goodEntry = l'.all goodEntry ∧ entriesSum l = entriesSum l' := by
    intro l l' h
    induction h with
    | nil => exact ⟨rfl, rfl⟩
    | cons hxy hrest ih =>
      constructor
      · simp only [List.all_cons, hge _ _ hxy, ih.1]
      · simp only [entriesSum, List.foldr_cons]
        simp only [entriesSum] at ih
        rw [hce _ _ hxy, ih.2]
  intro l l' h acc
  rw [sumEntries_char, sumEntries_char, (key h).1, (key h).2]

lemma stepDay_rowRel {r r' : List String} (hcol0 : r'[0]? = r[0]?)
    (hcode : rowCode r' = rowCode r) (h9 : rowCodeP r = some 9003)
    (w : Nat) (st : WalkState) {t t' : List (List String)}
    (h : List.Forall₂ (RowRel r r') t t') (dateStr : String) :
    stepDay w (dayEntries t dateStr) st = stepDay w (dayEntries t' dateStr) st := by
  have hent : List.Forall₂ (RowRel r r') (dayEntries t dateStr) (dayEntries t' dateStr) :=
    forall2_rowRel_filter
      (fun x y hxy => by rw [show y[0]? = x[0]? from rowRel_col0 hcol0 hxy]) h
  have hempty : (dayEntries t dateStr).isEmpty = (dayEntries t' dateStr).isEmpty := by
    have hlen := hent.length_eq
    rw [Bool.eq_iff_iff, List.isEmpty_iff, List.isEmpty_iff, ← List.length_eq_zero,
      ← List.length_eq_zero, hlen]
  unfold stepDay
  rw [hempty, sumEntries_rowRel hcode h9 hent]

lemma walkAux_rowRel {r r' : List String} (hcol0 : r'[0]? = r[0]?)
    (hcode : rowCode r' = rowCode r) (h9 : rowCodeP r = some 9003)
    (w : Nat) (endStr : String) :
    ∀ (fuel : Nat) (day : Int) {t t' : List (List String)},
      List.Forall₂ (RowRel r r') t t' → ∀ st : WalkState,
      walkAux w endStr fuel day t st = walkAux w endStr fuel day t' st := by
  intro fuel
  induction fuel with
  | zero => intro day t t' _ st; rfl
  | succ fuel ih =>
    intro day t t' h st
    simp only [walkAux]
    rw [stepDay_rowRel hcol0 hcode h9 w st h (renderDate day)]
    cases stepDay w (dayEntries t' (renderDate day)) st with
    | error e => rfl
    | ok st' =>
      by_cases hend : (renderDate day == endStr) = true
      · simp [hend]
      · simp only [Bool.not_eq_true] at hend
        simp only [hend]
        have hrest : List.Forall₂ (RowRel r r') (dayRest t (renderDate day))
            (dayRest t' (renderDate day)) :=
          forall2_rowRel_filter
            (fun x y hxy => by rw [show y[0]? = x[0]? from rowRel_col0 hcol0 hxy]) h
        exact ih (day + 1) hrest st'

lemma filterNonVacation_rowRel {r r' : List String} (hcode : rowCode r' = rowCode r) :
    ∀ {t t'}, List.Forall₂ (RowRel r r') t t' →
      (filterNonVacation t = .error .typeError ∧
        filterNonVacation t' = .error .typeError) ∨
      (∃ l l', List.Forall₂ (RowRel r r') l l' ∧
        filterNonVacation t = .ok l ∧ filterNonVacation t' = .ok l') := by
  intro t t' h
  induction h with
  | nil => exact .inr ⟨[], [], .nil, rfl, rfl⟩
  | cons hxy hrest ih =>
    rename_i x y l₁ l₂
    have hcxy : rowCode y = rowCode x := rowRel_rowCode hcode hxy
    cases hcx : rowCode x with
    | error e =>
      have he : e = .typeError := by
        cases h1 : x[1]? with
        | none => rw [rowCode, h1] at hcx; cases hcx; rfl
        | some label => rw [rowCode, h1] at hcx; cases hcx
      subst he
      exact .inl ⟨by simp [filterNonVacation, hcx],
        by simp [filterNonVacation, hcxy, hcx]⟩
    | ok code =>
      rcases ih with ⟨he1, he2⟩ | ⟨l, l', hrel, ho1, ho2⟩
      · exact .inl ⟨by simp [filterNonVacation, hcx, he1],
          by simp [filterNonVacation, hcxy, hcx, he2]⟩
      · by_cases h9001 : code ≠ some 9001
        · exact .inr ⟨x :: l, y :: l', .cons hxy hrel,
            by simp [filterNonVacation, hcx, ho1, h9001],
            by simp [filterNonVacation, hcxy, hcx, ho2, h9001]⟩
        · exact .inr ⟨l, l', hrel,
            by simp [filterNonVacation, hcx, ho1, h9001],
            by simp [filterNonVacation, hcxy, hcx, ho2, h9001]⟩

lemma getLast?_rowRel {r r' : List String} :
    ∀ {l l'}, List.Forall₂ (RowRel r r') l l' →
      (l = [] ∧ l' = []) ∨
      (∃ x y, RowRel r r' x y ∧ l.getLast? = some x ∧ l'.getLast? = some y) := by
  intro l l' h
  induction h with
  | nil => exact .inl ⟨rfl, rfl⟩
  | cons hxy hrest ih =>
    rename_i x y l₁ l₂
    right
    rcases ih with ⟨rfl, rfl⟩ | ⟨u, v, huv, hu, hv⟩
    · exact ⟨x, y, hxy, rfl, rfl⟩
    · refine ⟨u, v, huv, ?_, ?_⟩
      · cases l₁ with
        | nil => cases hu
        | cons c cs => rw [List.getLast?_cons_cons]; exact hu
      · cases l₂ with
        | nil => cases hv
        | cons c cs => rw [List.getLast?_cons_cons]; exact hv

/-- Version 1.1.2 cannot observe the difference between a table and the
same table with a `9003` row's time columns replaced. -/
lemma calcV112_rowRel {r r' : List String} (hcol0 : r'[0]? = r[0]?)
    (hcode : rowCode r' = rowCode r) (h9 : rowCodeP r = some 9003)
    (cfg : Config) {t t' : List (List String)}
    (h : List.Forall₂ (RowRel r r') t t') :
    calculateFromWorkingTimesV112 cfg t = calculateFromWorkingTimesV112 cfg t' := by
  unfold calculateFromWorkingTimesV112
  rcases filterNonVacation_rowRel hcode h with ⟨he1, he2⟩ | ⟨l, l', hrel, ho1, ho2⟩
  · rw [he1, he2]
  · rw [ho1, ho2]
    dsimp only
    rcases getLast?_rowRel hrel with ⟨rfl, rfl⟩ | ⟨x, y, hxy, hx, hy⟩
    · rfl
    · rw [hx, hy]
      dsimp only
      rw [show y[0]? = x[0]? from rowRel_col0 hcol0 hxy]
      cases x[0]? with
      | none => rfl
      | some lwds =>
        dsimp only
        cases dateStringToDays lwds with
        | none => rfl
        | some lastDay =>
          dsimp only
          cases h with
          | nil => rfl
          | cons hxy0 hrest0 =>
            rename_i r0 r0' t₁ t₂
            simp only [List.head?_cons]
            rw [show r0'[0]? = r0[0]? from rowRel_col0 hcol0 hxy0]
            cases r0[0]? with
            | none => rfl
            | some fds =>
              dsimp only
              cases dateStringToDays fds with
              | none => rfl
              | some firstDay =>
                dsimp only
                rw [walkAux_rowRel hcol0 hcode h9 cfg.wochenstunden _ _ _
                  (.cons hxy0 hrest0) _]

lemma setTimes_getElem_lt {r : List String} (a b : String) {i : Nat}
    (hlen : 8 ≤ r.length) (hi : i < 6) : (setTimes r a b)[i]? = r[i]? := by
  have hT : (r.take 6).length = 6 := by
    rw [List.length_take]
    omega
  have hTT : (r.take 6 ++ [a, b]).length = 8 := by
    rw [List.length_append, hT]
    rfl
  rw [setTimes, List.getElem?_append, if_pos (by rw [hTT]; omega),
    List.getElem?_append, if_pos (by rw [hT]; omega), List.getElem?_take, if_pos hi]

lemma setTimes_code {r : List String} (a b : String) (hlen : 8 ≤ r.length) :
    rowCodeP (setTimes r a b) = rowCodeP r := by
  rw [rowCodeP, rowCodeP, setTimes_getElem_lt a b hlen (by omega)]

lemma setTimes_length {r : List String} (a b : String) (hlen : 8 ≤ r.length) :
    (setTimes r a b).length = r.length := by
  rw [setTimes]
  simp [List.length_append, List.length_take, List.length_drop]
  omega

lemma forall2_set {r r' : List String} :
    ∀ (t : List (List String)) (i : Nat), t[i]? = some r →
      List.Forall₂ (RowRel r r') t (t.set i r') := by
  intro t
  induction t with
  | nil => intro i h; cases h
  | cons x rest ih =>
    intro i h
    cases i with
    | zero =>
      rw [List.getElem?_cons_zero] at h
      cases h
      rw [List.set_cons_zero]
      exact .cons (.inr ⟨rfl, rfl⟩)
        ((List.forall₂_same).2 fun x _ => .inl rfl)
    | succ j =>
      rw [List.getElem?_cons_succ] at h
      rw [List.set_cons_succ]
      exact .cons (.inl rfl) (ih j h)

/-- C5, amended: a `9003` row's times are never summed.  First
conjunct: the version 1.1.2 per-day summation returns its accumulator
unchanged on entries that all carry code `9003` (so such a date adds no
worked time to its week).  Second conjunct: the whole version 1.1.2
result is invariant under replacing the time columns of a `9003` row by
arbitrary strings.  Third conjunct: a version 1.0.0 loop step on a
`9003` row passes on a day sum that does not depend on the row's
measured time (`workingTimeInMin` is computed but discarded); the full
version 1.0.0 balance is nevertheless *not* invariant under such a
replacement, because the replacement can move the early-break row (see
the counterexample). -/
theorem c5_flex_day_amended :
    (∀ (entries : List (List String)) (acc : JsNum),
      (∀ e ∈ entries, rowCodeP e = some 9003) → sumEntries entries acc = .ok acc) ∧
    (∀ (cfg : Config) (t : List (List String)) (i : Nat) (r : List String) (a b : String),
      t[i]? = some r → 8 ≤ r.length → rowCodeP r = some 9003 →
      calculateFromWorkingTimesV112 cfg (t.set i (setTimes r a b)) =
        calculateFromWorkingTimesV112 cfg t) ∧
    (∀ (wMin : Int) (L : List String) (rest : List (List String)) (ld : Option String)
      (k s : JsNum) (e : List String) (t1 t2 : String),
      rowCodeP e = some 9003 → e[6]? = some t1 → e[7]? = some t2 →
      v100Loop wMin L (e :: rest) ld k s =
        if e.isPrefixOf L then
          .ok (if e[0]? ≠ ld then e[0]? else ld,
            if e[0]? ≠ ld then jsAdd k (jsSub s (some (wMin / 5))) else k,
            if e[0]? ≠ ld then some 0 else s)
        else
          v100Loop wMin L rest (if e[0]? ≠ ld then e[0]? else ld)
            (if e[0]? ≠ ld then jsAdd k (jsSub s (some (wMin / 5))) else k)
            (if e[0]? ≠ ld then some 0 else s)) := by
  refine ⟨?_, ?_, ?_⟩
  · intro entries
    induction entries with
    | nil => intro acc _; rfl
    | cons e rest ih =>
      intro acc h
      have h9 := h e (List.mem_cons_self e rest)
      simp only [sumEntries, rowCode_of_rowCodeP h9]
      simp only [ne_eq, not_true_eq_false, reduceIte]
      exact ih acc fun x hx => h x (List.mem_cons_of_mem e hx)
  · intro cfg t i r a b hget hlen h9
    have hcol0 : (setTimes r a b)[0]? = r[0]? := setTimes_getElem_lt a b hlen (by omega)
    have hcode : rowCode (setTimes r a b) = rowCode r := by
      have h1 : (setTimes r a b)[1]? = r[1]? := setTimes_getElem_lt a b hlen (by omega)
      have h1s : (r[1]?).isSome := isSome_getElemQ r 1 (by omega)
      rw [rowCode_of_isSome (h1 ▸ h1s), rowCode_of_isSome h1s, setTimes_code a b hlen]
    exact (calcV112_rowRel hcol0 hcode h9 cfg (forall2_set t i hget)).symm
  · intro wMin L rest ld k s e t1 t2 h9 h6 h7
    simp only [v100Loop, rowCode_of_rowCodeP h9, h6, h7]
    simp only [ne_eq, not_true_eq_false, reduceIte]

/-- C5, witness: replacing the single flex row's times by 10:00–11:00
leaves the version 1.1.2 result unchanged. -/
theorem c5_flex_day_witness :
    ([flexRow] : List (List String))[0]? = some flexRow ∧
    8 ≤ flexRow.length ∧ rowCodeP flexRow = some 9003 ∧
    calculateFromWorkingTimesV112 ⟨40, 0⟩ ([flexRow].set 0 (setTimes flexRow "10:00" "11:00")) =
      calculateFromWorkingTimesV112 ⟨40, 0⟩ [flexRow] :=
  ⟨by decide, by decide, by decide,
    c5_flex_day_amended.2.1 ⟨40, 0⟩ [flexRow] 0 flexRow "10:00" "11:00"
      (by decide) (by decide) (by decide)⟩

end Gzk
